import Mathlib

/-!
Shallow embedding of `src/store.js` (class `Store`, the "store-easy" typed
key-value wrapper over browser storage).  JavaScript runtime values that can
flow through the store are modelled by `JSValue`; the backend
(`localStorage` / `sessionStorage`) is an association list from full keys to
stored strings, where a stored string is either a well-formed JSON envelope
(what `JSON.stringify(payload)` produces in `set`) or an unparsable blob
(`corrupt`, on which `JSON.parse` throws).  Machine time `Date.now()` is an
explicit integer-millisecond parameter `now`.
-/

/-- A JavaScript runtime value, restricted to the shapes that can flow
through the store: `null`, booleans, (finite, exactly-represented) numbers,
strings, arrays, plain objects, and `Date` objects (carrying their epoch
milliseconds).  `undefined`, functions, NaN and infinities are outside the
modelled domain. -/
inductive JSValue where
  | vNull : JSValue
  | vBool : Bool → JSValue
  | vNum : ℚ → JSValue
  | vStr : String → JSValue
  | vArr : List JSValue → JSValue
  | vObj : List (String × JSValue) → JSValue
  | vDate : Int → JSValue
deriving Repr

/-- JavaScript `typeof` on the modelled values.  Note `typeof null`,
`typeof []` and `typeof (new Date())` are all `"object"`. -/
def jsTypeof : JSValue → String
  | .vNull => "object"
  | .vBool _ => "boolean"
  | .vNum _ => "number"
  | .vStr _ => "string"
  | .vArr _ => "object"
  | .vObj _ => "object"
  | .vDate _ => "object"

/-- `Array.isArray`. -/
def isArrayB : JSValue → Bool
  | .vArr _ => true
  | _ => false

/-- `value instanceof Date`. -/
def isDateB : JSValue → Bool
  | .vDate _ => true
  | _ => false

/-- `value === null`. -/
def isNullB : JSValue → Bool
  | .vNull => true
  | _ => false

/-- `Number.isInteger` (on the modelled exact rationals). -/
def isIntegerB : JSValue → Bool
  | .vNum q => q.den == 1
  | _ => false

/-- JavaScript truthiness of a modelled value (`0`, `""`, `null`, `false`
are falsy; every array, object and `Date` is truthy). -/
def jsTruthy : JSValue → Bool
  | .vNull => false
  | .vBool b => b
  | .vNum q => q != 0
  | .vStr s => s != ""
  | .vArr _ => true
  | .vObj _ => true
  | .vDate _ => true

/-- Stand-in for `Date.prototype.toJSON` (the ISO-8601 rendering used by
`JSON.stringify` on a `Date`).  No claim depends on the exact text of the
rendering, only on the fact that it is a string determined by the epoch
milliseconds, so the calendar arithmetic is abstracted into an injective
numeric rendering. -/
def dateToISO (ms : Int) : String := "iso:" ++ toString ms

mutual
/-- The effect of a `JSON.stringify` / `JSON.parse` round trip on a modelled
value: `Date` objects are replaced by their string rendering (via `toJSON`),
everything else survives structurally unchanged. -/
def jsonNormalize : JSValue → JSValue
  | .vNull => .vNull
  | .vBool b => .vBool b
  | .vNum q => .vNum q
  | .vStr s => .vStr s
  | .vDate ms => .vStr (dateToISO ms)
  | .vArr xs => .vArr (jsonNormalizeList xs)
  | .vObj fs => .vObj (jsonNormalizeFields fs)

def jsonNormalizeList : List JSValue → List JSValue
  | [] => []
  | v :: vs => jsonNormalize v :: jsonNormalizeList vs

def jsonNormalizeFields : List (String × JSValue) → List (String × JSValue)
  | [] => []
  | (k, v) :: fs => (k, jsonNormalize v) :: jsonNormalizeFields fs
end

example : jsonNormalize (.vArr [.vDate 3, .vNum 2]) = .vArr [.vStr "iso:3", .vNum 2] := rfl
example : ("ab" ++ "cd").data = "ab".data ++ "cd".data := rfl

/-- Errors thrown by `Store` methods.  The source throws plain `Error` /
`TypeError` objects; the constructors here record which `throw` site fired
(and its dynamic data), matching the spec's taxonomy: `typeRequired` and
`unsupportedType` and the `expires` failures are "ConfigurationError"s,
`typeMismatch` is "TypeMismatch", `invalidNamespace` is "InvalidArgument". -/
inductive StoreError where
  | typeRequired : StoreError
  | unsupportedType : StoreError
  | typeMismatch : String → StoreError
  | invalidExpiresFormat : String → StoreError
  | expiresTypeError : StoreError
  | invalidNamespace : StoreError
deriving Repr, DecidableEq

/-- The validity predicate dispatch table of `#typeCheck` (store.js lines
185-207): `isValid = { string: ..., ..., "no-type": ... }[type]`; `none`
models the dictionary lookup yielding `undefined` (unsupported tag).  The
lookup key is the resolved `type`, which can also be `undefined` (`none`). -/
def validFor : String → Option (JSValue → Bool)
  | "string" => some fun v => jsTypeof v == "string"
  | "number" => some fun v => jsTypeof v == "number"
  | "int" => some fun v => jsTypeof v == "number" && isIntegerB v
  | "object" => some fun v => jsTypeof v == "object" && !isNullB v && !isArrayB v
  | "array" => some isArrayB
  | "boolean" => some fun v => jsTypeof v == "boolean"
  | "date" => some isDateB
  | "no-type" => some fun _ => true
  | _ => none

/-- `#typeCheck(value, type)` (store.js lines 185-207).  `type` is `Option
String` because the JS variable can be `undefined` (then the dictionary
lookup fails and the "Unsupported type" error is thrown). -/
def typeCheck (value : JSValue) : Option String → Except StoreError Unit
  | none => .error .unsupportedType
  | some t =>
    match validFor t with
    | none => .error .unsupportedType
    | some p => if p value then .ok () else .error (.typeMismatch t)

example : typeCheck (.vNum 1) (some "int") = .ok () := rfl
example : typeCheck (.vNum ⟨3, 2, by decide, by decide⟩) (some "int") =
    .error (.typeMismatch "int") := rfl
example : typeCheck (.vDate 5) (some "object") = .ok () := rfl
example : typeCheck (.vStr "x") (some "bogus") = .error .unsupportedType := rfl

/-- JavaScript whitespace as used by `String.prototype.trim` and `\s`,
restricted to the ASCII range of the modelled domain. -/
def isJsWs (c : Char) : Bool :=
  c == ' ' || c == '\t' || c == '\n' || c == '\r' || c == '\x0b' || c == '\x0c'

/-- `String.prototype.trim` (on the modelled ASCII whitespace). -/
def jsTrim (s : String) : String :=
  String.mk ((s.data.dropWhile isJsWs).reverse.dropWhile isJsWs |>.reverse)

/-- ASCII case folding of one character (`String.prototype.toLowerCase`,
restricted to the ASCII domain). -/
def jsCharLower (c : Char) : Char :=
  if 'A' ≤ c ∧ c ≤ 'Z' then Char.ofNat (c.toNat + 32) else c

/-- `String.prototype.toLowerCase` (ASCII domain). -/
def jsToLower (s : String) : String := String.mk (s.data.map jsCharLower)

/-- Numeric value of a digit string — what `parseInt(amount, 10)` returns on
the all-digit capture group of the `expires` regular expression. -/
def digitsToNat (ds : List Char) : Nat :=
  ds.foldl (fun a c => a * 10 + (c.toNat - '0'.toNat)) 0

/-- The unit table `unitToMs` of `#parseExpires` (store.js lines 215-222),
as the object-literal lookup: a recognized unit maps to its millisecond
multiplier, anything else to `undefined`. -/
def unitToMs (u : String) : Option Nat :=
  if u == "s" then some 1000
  else if u == "sec" then some 1000
  else if u == "m" then some (60 * 1000)
  else if u == "min" then some (60 * 1000)
  else if u == "h" then some (60 * 60 * 1000)
  else if u == "d" then some (24 * 60 * 60 * 1000)
  else none

/-- The regular-expression match
`expires.trim().toLowerCase().match(/^(\d+)\s*(s|sec|m|min|h|d)$/)` of
`#parseExpires`, returning the two capture groups.  The greedy split is
equivalent to the regex because the unit alternatives contain no digits. -/
def matchExpires (s : String) : Option (List Char × String) :=
  let cs := (jsToLower (jsTrim s)).data
  let digits := cs.takeWhile Char.isDigit
  let rest := (cs.dropWhile Char.isDigit).dropWhile isJsWs
  if digits.isEmpty then none
  else
    match unitToMs (String.mk rest) with
    | some _ => some (digits, String.mk rest)
    | none => none

/-- `#parseExpires(expires)` (store.js lines 214-241): a number is returned
as-is; a string must match `<digits><ws*><unit>` (after trim/lower-casing)
and is converted through `unitToMs`; anything else throws.  The product
`parseInt(amount, 10) * ms` of two (integral) numbers is computed in `ℕ` and
cast, which is the same rational value. -/
def parseExpires (expires : JSValue) : Except StoreError ℚ :=
  match expires with
  | .vNum q => .ok q
  | .vStr s =>
    match matchExpires s with
    | none => .error (.invalidExpiresFormat s)
    | some (digits, unit) =>
      match unitToMs unit with
      | some ms => .ok ((digitsToNat digits * ms : ℕ) : ℚ)
      | none => .error (.invalidExpiresFormat s)
  | _ => .error .expiresTypeError

instance {ε α : Type} [DecidableEq ε] [DecidableEq α] : DecidableEq (Except ε α) := fun a b =>
  match a, b with
  | .ok x, .ok y =>
    if h : x = y then .isTrue (by rw [h]) else .isFalse (by intro hh; cases hh; exact h rfl)
  | .error x, .error y =>
    if h : x = y then .isTrue (by rw [h]) else .isFalse (by intro hh; cases hh; exact h rfl)
  | .ok _, .error _ => .isFalse (by intro hh; cases hh)
  | .error _, .ok _ => .isFalse (by intro hh; cases hh)

example : parseExpires (.vStr " 30S ") = .ok ((30000 : ℕ) : ℚ) := by decide
example : parseExpires (.vStr "2 Min") = .ok ((120000 : ℕ) : ℚ) := by decide
example : parseExpires (.vStr "1d") = .ok ((86400000 : ℕ) : ℚ) := by decide
example : parseExpires (.vStr "x") = .error (.invalidExpiresFormat "x") := by decide
example : parseExpires (.vBool true) = .error .expiresTypeError := rfl

/-- `Date.now() + d` for an integer clock reading `now` and a rational
duration `d`, written with an explicit (already reduced) representation so
that it evaluates definitionally; `intAddRat_eq` below proves it is ordinary
rational addition. -/
def intAddRat (n : Int) (q : ℚ) : ℚ :=
  ⟨q.num + n * q.den, q.den, q.den_nz, by
    have h1 : Int.gcd q.num q.den = 1 := by
      have := q.reduced
      simpa [Int.gcd, Int.natAbs_ofNat] using this
    have h2 : IsCoprime q.num (q.den : Int) := Int.gcd_eq_one_iff_coprime.mp h1
    have h3 : IsCoprime (q.num + n * (q.den : Int)) (q.den : Int) := by
      simpa [mul_comm] using h2.add_mul_right_left n
    have h4 : Int.gcd (q.num + n * q.den) q.den = 1 := Int.gcd_eq_one_iff_coprime.mpr h3
    simpa [Int.gcd, Int.natAbs_ofNat] using h4⟩

theorem intAddRat_eq (n : Int) (q : ℚ) : intAddRat n q = (n : ℚ) + q := by
  have hd : (q.den : Int) ≠ 0 := Int.natCast_ne_zero.mpr q.den_nz
  have h1 : intAddRat n q = Rat.divInt (q.num + n * q.den) q.den := Rat.mk'_eq_divInt
  have h2 : (n : ℚ) = Rat.divInt n 1 := Rat.intCast_eq_divInt n
  have h3 : q = Rat.divInt q.num q.den := (Rat.num_divInt_den q).symm
  rw [h1, h2]
  conv_rhs => rw [h3]
  rw [Rat.divInt_add_divInt _ _ one_ne_zero hd]
  congr 1 <;> ring

/-- The parsed shape of the JSON envelope `{ value, type, strict, expiresAt }`
that `set` serializes (store.js line 84).  `type` is `Option String` because
a (possibly tampered-with) stored object may lack the field (`undefined`
after destructuring); `expiresAt` is `null` or a numeric epoch-milliseconds
timestamp. -/
structure Envelope where
  value : JSValue
  type : Option String
  strict : Bool
  expiresAt : Option ℚ

/-- A string held by the backend under some key: either the serialization
`JSON.stringify(payload)` of a well-formed envelope — represented by the
envelope that `JSON.parse` recovers from it — or any other string, on which
`JSON.parse` throws (`corrupt`, carrying the raw text so that the JavaScript
truthiness check `!storedValue` on the empty string stays expressible). -/
inductive StoredVal where
  | env : Envelope → StoredVal
  | corrupt : String → StoredVal

/-- The backend (`localStorage` / `sessionStorage` contents): an association
list from full keys to stored strings, in insertion order — `Object.keys`
enumerates non-numeric string keys in insertion order, and `setItem` on an
existing key keeps its position. -/
def Storage : Type := List (String × StoredVal)

/-- `storage.getItem(key)`: `null` when the key is absent. -/
def getItemRaw : Storage → String → Option StoredVal
  | [], _ => none
  | (k', v') :: rest, k => if k' = k then some v' else getItemRaw rest k

/-- `storage.setItem(key, str)`: replace in place, or append a new key. -/
def setItemRaw : Storage → String → StoredVal → Storage
  | [], k, v => [(k, v)]
  | (k', v') :: rest, k, v =>
    if k' = k then (k, v) :: rest else (k', v') :: setItemRaw rest k v

/-- `storage.removeItem(key)` (idempotent). -/
def removeItemRaw : Storage → String → Storage
  | [], _ => []
  | (k', v') :: rest, k =>
    if k' = k then removeItemRaw rest k else (k', v') :: removeItemRaw rest k

/-- `Object.keys(this.storage)`. -/
def storageKeys (st : Storage) : List String := st.map fun e => e.1

/-- JavaScript truthiness of `storage.getItem(key)`: `null` and the empty
string are falsy (the `if (!storedValue)` / `if (!raw)` guards in `get`,
`isExpired` and `#getMeta`). -/
def itemTruthy : Option StoredVal → Bool
  | none => false
  | some (.env _) => true
  | some (.corrupt s) => s != ""

/-- `key.startsWith(pre)` on the underlying character lists. -/
def listStarts : List Char → List Char → Bool
  | _, [] => true
  | [], _ :: _ => false
  | c :: cs, d :: ds => c == d && listStarts cs ds

/-- JavaScript `String.prototype.startsWith`. -/
def jsStartsWith (s pre : String) : Bool := listStarts s.data pre.data

/-- `fullKey.slice(n)` (drop the first `n` characters). -/
def jsSlice (s : String) (n : Nat) : String := String.mk (s.data.drop n)

/-- `#withPrefix(key)` (store.js lines 40-42): `prefix ? prefix + ":" + key
: key`, where the JS truthiness of the string `prefix` is `≠ ""`.  (`pfx`
abbreviates the private field `#prefix`.) -/
def withPfx (pfx key : String) : String :=
  if pfx ≠ "" then pfx ++ ":" ++ key else key

/-- `#updateKeys()` (store.js lines 44-48): the recomputed key cache —
`Object.keys(this.storage)` filtered by the namespace when a prefix is
configured. -/
def updateKeys (pfx : String) (st : Storage) : List String :=
  (storageKeys st).filter fun key =>
    if pfx ≠ "" then jsStartsWith key (pfx ++ ":") else true

/-- The result of `#getMeta(fullKey)` (store.js lines 293-305) when not
`null`: the `type` and `strict` fields of the parsed envelope. -/
structure Meta where
  type : Option String
  strict : Bool

/-- `#getMeta(fullKey)`: `null` for an absent raw string (the `!raw` guard —
an envelope's JSON text is never empty, so well-formed entries are always
truthy) or a parse failure, otherwise the previous envelope's `type` and
`strict`. -/
def getMeta (st : Storage) (fullKey : String) : Option Meta :=
  match getItemRaw st fullKey with
  | some (.env e) => some ⟨e.type, e.strict⟩
  | _ => none

/-- The `options` argument of `set` / `setMany`.  `none` models an omitted
(or `undefined`) field, which is what triggers the destructuring defaults
`type = previous?.type` and `strict = previous?.strict ?? true`. -/
structure SetOptions where
  type : Option String := none
  expires : Option JSValue := none
  strict : Option Bool := none

/-- The shared write body of `set` (store.js lines 61-85) and of one
iteration of the `setMany` loop (lines 96-120) — the two are textually
identical up to the error-message text: resolve `type`/`strict` against the
previous envelope, enforce the strict/type rules, compute `expiresAt`, and
`setItem` the serialized envelope.  Everything before the `setItem` can
throw, so an error leaves the backend unchanged.  The final `#updateKeys()`
of `set` is NOT part of this body (`setMany` defers it). -/
def setOne (pfx : String) (st : Storage) (now : Int) (key : String) (value : JSValue)
    (options : SetOptions) : Except StoreError Storage :=
  let fullKey := withPfx pfx key
  let previous := getMeta st fullKey
  let type0 : Option String :=
    match options.type with
    | some t => some t
    | none => previous.bind fun m => m.type
  let strict0 : Bool :=
    options.strict.getD (match previous with | some m => m.strict | none => true)
  let typeFalsy : Bool := match type0 with | none => true | some t => t == ""
  if strict0 && typeFalsy then .error .typeRequired
  else
    let type1 : Option String := if typeFalsy && !strict0 then some "no-type" else type0
    match (if strict0 then typeCheck value type1 else .ok ()) with
    | .error e => .error e
    | .ok _ =>
      let expRes : Except StoreError (Option ℚ) :=
        match options.expires with
        | some ev =>
          if jsTruthy ev then
            match parseExpires ev with
            | .error e => .error e
            | .ok d => .ok (some (intAddRat now d))
          else .ok none
        | none => .ok none
      match expRes with
      | .error e => .error e
      | .ok expiresAt =>
        .ok (setItemRaw st fullKey (.env ⟨jsonNormalize value, type1, strict0, expiresAt⟩))

/-- `set(key, value, options)` (store.js lines 60-87): the write body
followed by the `#updateKeys()` cache refresh.  Returns the new backend
contents and the new key cache; on a thrown error nothing changed. -/
def Store.set (pfx : String) (st : Storage) (now : Int) (key : String) (value : JSValue)
    (options : SetOptions := {}) : Except StoreError (Storage × List String) :=
  match setOne pfx st now key value options with
  | .error e => .error e
  | .ok st' => .ok (st', updateKeys pfx st')

/-- The `for (const item of iterable)` loop of `setMany` (store.js lines
95-121): entries are written in order; the first failing entry aborts the
loop, and the entries already written stay in the backend (the pair carries
the backend as mutated so far together with the thrown error, if any). -/
def setManyGo (pfx : String) (now : Int) :
    Storage → List (String × JSValue × SetOptions) → Storage × Option StoreError
  | st, [] => (st, none)
  | st, (key, value, options) :: rest =>
    match setOne pfx st now key value options with
    | .error e => (st, some e)
    | .ok st' => setManyGo pfx now st' rest

/-- `setMany(entries)` (store.js lines 93-123).  The single `#updateKeys()`
at line 122 runs only when the loop completes; a thrown error propagates
past it, leaving the instance's key cache as it was before the call. -/
def Store.setMany (pfx : String) (st : Storage) (cache : List String) (now : Int)
    (entries : List (String × JSValue × SetOptions)) :
    Storage × List String × Option StoreError :=
  match setManyGo pfx now st entries with
  | (st', none) => (st', updateKeys pfx st', none)
  | (st', some e) => (st', cache, some e)

/-- `remove(key)` (store.js lines 158-162). -/
def Store.remove (pfx : String) (st : Storage) (key : String) : Storage × List String :=
  let st' := removeItemRaw st (withPfx pfx key)
  (st', updateKeys pfx st')

/-- `get(key)` (store.js lines 130-152).  The whole parse / expiry /
re-validation block sits inside one `try { ... } catch (e) { console.warn
(...); return null; }`, so BOTH a `JSON.parse` failure AND a `#typeCheck`
throw from line 144 are caught there and turned into the `null` sentinel —
`get` never throws.  An expired entry is removed via `this.remove(key)`
(including its cache refresh).  Returns the JS return value (`vNull` is the
not-found sentinel) with the backend and cache after the call. -/
def Store.get (pfx : String) (st : Storage) (cache : List String) (now : Int) (key : String) :
    JSValue × Storage × List String :=
  let fullKey := withPfx pfx key
  let stored := getItemRaw st fullKey
  if !itemTruthy stored then (.vNull, st, cache)
  else
    match stored with
    | some (.env e) =>
      let expired : Bool :=
        match e.expiresAt with
        | some x => x != 0 && decide ((now : ℚ) > x)
        | none => false
      if expired then
        let (st', cache') := Store.remove pfx st key
        (.vNull, st', cache')
      else if e.strict && e.type != some "no-type" then
        match typeCheck e.value e.type with
        | .ok _ => (e.value, st, cache)
        | .error _ => (.vNull, st, cache)
      else (e.value, st, cache)
    | _ => (.vNull, st, cache)

/-- `clear()` (store.js lines 167-178): with a prefix, remove every key of
the namespace (a snapshot of `Object.keys` is iterated, so the net effect is
filtering the matching keys out); without one, `storage.clear()`. -/
def Store.clear (pfx : String) (st : Storage) : Storage × List String :=
  let st' :=
    if pfx ≠ "" then st.filter fun e => !jsStartsWith e.1 (pfx ++ ":")
    else []
  (st', updateKeys pfx st')

/-- `has(key)` (store.js lines 248-250): `this.get(key) !== null`, with
`get`'s side effects. -/
def Store.has (pfx : String) (st : Storage) (cache : List String) (now : Int) (key : String) :
    Bool × Storage × List String :=
  let (v, st', cache') := Store.get pfx st cache now key
  (!isNullB v, st', cache')

/-- `isExpired(key)` (store.js lines 257-268): reads the raw envelope only —
no mutation is possible.  The JS function returns the falsy value of
`expiresAt` itself when no expiration is set; the model returns the
truthiness of the returned value. -/
def Store.isExpired (pfx : String) (st : Storage) (now : Int) (key : String) : Bool :=
  let raw := getItemRaw st (withPfx pfx key)
  if !itemTruthy raw then false
  else
    match raw with
    | some (.env e) =>
      match e.expiresAt with
      | some x => x != 0 && decide ((now : ℚ) > x)
      | none => false
    | _ => false

/-- The `for (const fullKey of this.#keys)` loop of `getAll` (store.js lines
276-284): `for...of` iterates the array snapshot taken at loop entry, so a
mid-loop cache refresh (from an expiry removal inside `get`) does not change
the iteration.  Collects `result[key] = value` for every non-`null` read, in
visit order. -/
def getAllGo (pfx : String) (now : Int) :
    List String → Storage → List String → List (String × JSValue) × Storage × List String
  | [], st, cache => ([], st, cache)
  | fullKey :: rest, st, cache =>
    let key := if pfx ≠ "" then jsSlice fullKey (pfx.length + 1) else fullKey
    let (v, st', cache') := Store.get pfx st cache now key
    let (res, st'', cache'') := getAllGo pfx now rest st' cache'
    ((match v with | .vNull => res | _ => (key, v) :: res), st'', cache'')

/-- `getAll()` (store.js lines 274-286). -/
def Store.getAll (pfx : String) (st : Storage) (cache : List String) (now : Int) :
    List (String × JSValue) × Storage × List String :=
  getAllGo pfx now cache st cache

/-- The two backend choices. -/
inductive Backend where
  | localStorage
  | sessionStorage
deriving DecidableEq, Repr

/-- JavaScript `v === s` for a string literal `s`. -/
def strictEqStr (v : JSValue) (s : String) : Bool :=
  match v with
  | .vStr t => t == s
  | _ => false

/-- The backend selection of the constructor (store.js lines 10-15):
`storageType === "localStorage" ? localStorage : sessionStorage` — any other
argument, of any type, silently selects `sessionStorage`. -/
def chooseBackend (storageType : JSValue) : Backend :=
  if strictEqStr storageType "localStorage" then .localStorage else .sessionStorage

/-- A constructed `Store` instance: its backend choice, its prefix, and its
key cache. -/
structure StoreInst where
  backend : Backend
  pfx : String
  cache : List String

/-- `constructor(storageType = "localStorage", prefix = "")` (store.js lines
10-15): select the backend, record the prefix, compute the initial cache
from the backend contents `st`. -/
def mkStore (st : Storage) (storageType : JSValue := .vStr "localStorage")
    (pfx : String := "") : StoreInst :=
  ⟨chooseBackend storageType, pfx, updateKeys pfx st⟩

/-- `ns(namespace)` (store.js lines 22-30): reject a non-string or
whitespace-only namespace, otherwise construct a fresh instance on the same
backend (`this.storage === localStorage ? "localStorage" :
"sessionStorage"`) with the namespace as prefix. -/
def Store.ns (inst : StoreInst) (st : Storage) (nsArg : JSValue) :
    Except StoreError StoreInst :=
  match nsArg with
  | .vStr s =>
    if jsTrim s == "" then .error .invalidNamespace
    else
      .ok (mkStore st
        (.vStr (match inst.backend with
          | .localStorage => "localStorage"
          | .sessionStorage => "sessionStorage")) s)
  | _ => .error .invalidNamespace

/-! Helper lemmas about the backend association list and key strings. -/

theorem getItemRaw_setItemRaw_self (st : Storage) (k : String) (v : StoredVal) :
    getItemRaw (setItemRaw st k v) k = some v := by
  induction st with
  | nil => simp [setItemRaw, getItemRaw]
  | cons e rest ih =>
    by_cases h : e.1 = k
    · simp [setItemRaw, getItemRaw, h]
    · simp [setItemRaw, getItemRaw, h, ih]

theorem getItemRaw_setItemRaw_ne (st : Storage) (k k' : String) (v : StoredVal)
    (h : k' ≠ k) : getItemRaw (setItemRaw st k v) k' = getItemRaw st k' := by
  induction st with
  | nil => simp [setItemRaw, getItemRaw, Ne.symm h]
  | cons e rest ih =>
    by_cases he : e.1 = k
    · simp [setItemRaw, getItemRaw, he, h, Ne.symm h]
    · by_cases he' : e.1 = k'
      · simp [setItemRaw, getItemRaw, he, he', h, Ne.symm h]
      · simp [setItemRaw, getItemRaw, he, he', h, Ne.symm h, ih]

theorem getItemRaw_removeItemRaw_ne (st : Storage) (k k' : String)
    (h : k' ≠ k) : getItemRaw (removeItemRaw st k) k' = getItemRaw st k' := by
  induction st with
  | nil => simp [removeItemRaw, getItemRaw]
  | cons e rest ih =>
    by_cases he : e.1 = k
    · simp [removeItemRaw, getItemRaw, he, h, Ne.symm h, ih]
    · by_cases he' : e.1 = k'
      · simp [removeItemRaw, getItemRaw, he, he', h, Ne.symm h]
      · simp [removeItemRaw, getItemRaw, he, he', h, Ne.symm h, ih]

theorem mem_storageKeys_setItemRaw (st : Storage) (k : String) (v : StoredVal) :
    k ∈ storageKeys (setItemRaw st k v) := by
  induction st with
  | nil => simp [setItemRaw, storageKeys]
  | cons e rest ih =>
    by_cases h : e.1 = k
    · simp [setItemRaw, storageKeys, h]
    · simpa [setItemRaw, storageKeys, h] using Or.inr (by simpa [storageKeys] using ih)

theorem listStarts_append_self (xs ys : List Char) : listStarts (xs ++ ys) xs = true := by
  induction xs with
  | nil => simp [listStarts]
  | cons c cs ih => simp [listStarts, ih]

theorem listStarts_length_le (s p : List Char) (h : listStarts s p = true) :
    p.length ≤ s.length := by
  induction p generalizing s with
  | nil => simp
  | cons d ds ih =>
    cases s with
    | nil => simp [listStarts] at h
    | cons c cs =>
      simp only [listStarts, Bool.and_eq_true, beq_iff_eq] at h
      simpa using ih cs h.2

theorem listStarts_eq_append_drop (s p : List Char) (h : listStarts s p = true) :
    s = p ++ s.drop p.length := by
  induction p generalizing s with
  | nil => simp
  | cons d ds ih =>
    cases s with
    | nil => simp [listStarts] at h
    | cons c cs =>
      simp only [listStarts, Bool.and_eq_true, beq_iff_eq] at h
      simpa [h.1] using ih cs h.2

theorem listStarts_of_listStarts_le (s p q : List Char)
    (hp : listStarts s p = true) (hq : listStarts s q = true)
    (hle : p.length ≤ q.length) : listStarts q p = true := by
  induction p generalizing s q with
  | nil => simp [listStarts]
  | cons d ds ih =>
    cases q with
    | nil => simp at hle
    | cons c cs =>
      cases s with
      | nil => simp [listStarts] at hp
      | cons a as =>
        simp only [listStarts, Bool.and_eq_true, beq_iff_eq] at hp hq ⊢
        exact ⟨hq.1.symm.trans hp.1, ih as cs hp.2 hq.2 (by simpa using hle)⟩

theorem listStarts_eq_of_length_eq (p q : List Char)
    (h : listStarts q p = true) (hl : p.length = q.length) : p = q := by
  induction p generalizing q with
  | nil => cases q with
    | nil => rfl
    | cons c cs => simp at hl
  | cons d ds ih =>
    cases q with
    | nil => simp at hl
    | cons c cs =>
      simp only [listStarts, Bool.and_eq_true, beq_iff_eq] at h
      have := ih cs h.2 (by simpa using hl)
      simp [h.1, this]

theorem strData_append (a b : String) : (a ++ b).data = a.data ++ b.data := rfl

theorem withPfx_data (p k : String) (hp : p ≠ "") :
    (withPfx p k).data = p.data ++ ':' :: k.data := by
  simp [withPfx, hp, strData_append]

theorem jsStartsWith_withPfx (p k : String) (hp : p ≠ "") :
    jsStartsWith (withPfx p k) (p ++ ":") = true := by
  have h1 : (withPfx p k).data = (p ++ ":").data ++ k.data := by
    show (withPfx p k).data = (p.data ++ [':']) ++ k.data
    simp [withPfx_data p k hp]
  simp only [jsStartsWith, h1, listStarts_append_self]

theorem str_eq_of_data_eq {a b : String} (h : a.data = b.data) : a = b := String.ext h

theorem withPfx_inj_left {a b k : String} (ha : a ≠ "") (hb : b ≠ "")
    (h : withPfx a k = withPfx b k) : a = b := by
  have hd : a.data ++ ':' :: k.data = b.data ++ ':' :: k.data := by
    have := congrArg String.data h
    rwa [withPfx_data a k ha, withPfx_data b k hb] at this
  exact str_eq_of_data_eq (List.append_inj_left hd (by
    have := congrArg List.length hd
    simpa using this))

theorem withPfx_inj_right {p k k' : String} (h : withPfx p k = withPfx p k') : k = k' := by
  by_cases hp : p = ""
  · simpa [withPfx, hp] using h
  · have hd : p.data ++ ':' :: k.data = p.data ++ ':' :: k'.data := by
      have := congrArg String.data h
      rwa [withPfx_data p k hp, withPfx_data p k' hp] at this
    have := List.append_inj_right hd rfl
    exact str_eq_of_data_eq (by simpa using this)

theorem typeCheck_ok_ne_empty {v : JSValue} {t : String} {u : Unit}
    (h : typeCheck v (some t) = .ok u) : (t == "") = false := by
  by_cases ht : t = ""
  · subst ht; simp [typeCheck, validFor] at h
  · simpa using ht

/-! The claims. -/

/-- Claim C10 (confirmed): the constructor never fails on the backend-kind
argument — every `storageType` other than the exact string `"localStorage"`
(misspellings and non-strings included) silently selects the session-scoped
backend — and `ns(name)` propagates the parent instance's backend choice. -/
theorem C10_backend_fallback :
    (∀ v : JSValue, v ≠ .vStr "localStorage" →
      chooseBackend v = .sessionStorage ∧
      ∀ (st : Storage) (p : String), (mkStore st v p).backend = .sessionStorage) ∧
    (∀ (inst : StoreInst) (st2 : Storage) (s : String) (r : StoreInst),
      Store.ns inst st2 (.vStr s) = .ok r → r.backend = inst.backend ∧ r.pfx = s) := by
  constructor
  · intro v hv
    have hb : chooseBackend v = .sessionStorage := by
      cases v with
      | vStr t =>
        have ht : t ≠ "localStorage" := fun h => hv (by rw [h])
        simp [chooseBackend, strictEqStr, ht]
      | vNull => rfl
      | vBool b => rfl
      | vNum q => rfl
      | vArr xs => rfl
      | vObj fs => rfl
      | vDate ms => rfl
    exact ⟨hb, fun st p => hb⟩
  · intro inst st2 s r h
    by_cases hs : jsTrim s == ""
    · simp [Store.ns, hs] at h
    · rw [Store.ns] at h
      simp only [hs, Bool.false_eq_true, if_false] at h
      cases h
      cases hbk : inst.backend <;>
        simp [mkStore, chooseBackend, strictEqStr, hbk]

theorem C10_backend_fallback_witness :
    chooseBackend (.vStr "localStorge") = .sessionStorage ∧
    (mkStore [] (.vNum 3) "p").backend = .sessionStorage ∧
    (mkStore [] (.vStr "sessionStorage") "").backend = .sessionStorage := by
  refine ⟨(C10_backend_fallback.1 (.vStr "localStorge") (by simp)).1,
    (C10_backend_fallback.1 (.vNum 3) (by simp)).2 [] "p",
    (C10_backend_fallback.1 (.vStr "sessionStorage") (by simp)).2 [] ""⟩

/-- Claim C2, counterexample: the claim says a stored envelope with
`strict = true` whose value fails validation makes `get` THROW a
`TypeMismatch` to the caller rather than return the not-found sentinel.  In
the code the `#typeCheck` call at store.js line 144 sits inside the same
`try \x7b ... \x7d catch` as `JSON.parse`, so the throw is caught at line 148 and
`get` returns `null`: here the tampered value `"x"` fails validation against
`"number"`, yet `get` returns the sentinel and leaves the entry in place. -/
theorem C2_get_mismatch_thrown_cex :
    typeCheck (.vStr "x") (some "number") = .error (.typeMismatch "number") ∧
    Store.get "" [("k", .env ⟨.vStr "x", some "number", true, none⟩)] ["k"] 0 "k" =
      (.vNull, [("k", .env ⟨.vStr "x", some "number", true, none⟩)], ["k"]) :=
  ⟨rfl, rfl⟩

/-- Claim C2 (corrected): for every stored envelope with `strict = true`
(and not expired) whose parsed value fails validation against its `type`,
`get` catches the `TypeMismatch` exactly like a JSON parse failure and
returns the not-found sentinel `null`, leaving the backend and cache
untouched; it does not propagate the error to the caller. -/
theorem C2_get_mismatch_returns_null
    (pfx k : String) (st : Storage) (cache : List String) (now : Int)
    (e : Envelope) (err : StoreError)
    (hlook : getItemRaw st (withPfx pfx k) = some (.env e))
    (hstrict : e.strict = true)
    (hfresh : (match e.expiresAt with
               | some x => x != 0 && decide ((now : ℚ) > x)
               | none => false) = false)
    (hcheck : typeCheck e.value e.type = .error err) :
    Store.get pfx st cache now k = (.vNull, st, cache) := by
  have hnt : (e.type != some "no-type") = true := by
    cases het : e.type with
    | none => rfl
    | some t =>
      by_cases h' : t = "no-type"
      · rw [het, h'] at hcheck
        simp [typeCheck, validFor] at hcheck
      · simp [h']
  simp [Store.get, hlook, itemTruthy, hfresh, hstrict, hnt, hcheck]

theorem C2_get_mismatch_returns_null_witness :
    Store.get "" [("n", .env ⟨.vBool true, some "int", true, none⟩)] ["n"] 5 "n" =
      (.vNull, [("n", .env ⟨.vBool true, some "int", true, none⟩)], ["n"]) :=
  C2_get_mismatch_returns_null "" "n" [("n", .env ⟨.vBool true, some "int", true, none⟩)]
    ["n"] 5 ⟨.vBool true, some "int", true, none⟩ (.typeMismatch "int") rfl rfl rfl rfl

/-- Claim C5 (confirmed): `setMany` validates and writes each entry in
order; the first failing entry throws synchronously with the backend as
mutated so far (no rollback of earlier entries) and later entries are never
written (the loop stops).  The last two conjuncts are the spec's own
example: `[["a",1,\x7btype:"int"\x7d], ["b","x",\x7btype:"number"\x7d]]` writes
`"a"`, throws `TypeMismatch` on `"b"`, and `get("a")` afterwards returns
`1`. -/
theorem C5_setMany_partial_application :
    (∀ (pfx : String) (st : Storage) (cache : List String) (now : Int)
       (k : String) (v : JSValue) (o : SetOptions)
       (rest : List (String × JSValue × SetOptions)) (e : StoreError),
      setOne pfx st now k v o = .error e →
      Store.setMany pfx st cache now ((k, v, o) :: rest) = (st, cache, some e)) ∧
    (∀ (pfx : String) (st st1 : Storage) (now : Int)
       (k : String) (v : JSValue) (o : SetOptions)
       (rest : List (String × JSValue × SetOptions)),
      setOne pfx st now k v o = .ok st1 →
      setManyGo pfx now st ((k, v, o) :: rest) = setManyGo pfx now st1 rest) ∧
    Store.setMany "" [] [] 0
      [("a", .vNum 1, ⟨some "int", none, none⟩), ("b", .vStr "x", ⟨some "number", none, none⟩)] =
      ([("a", .env ⟨.vNum 1, some "int", true, none⟩)], [], some (.typeMismatch "number")) ∧
    (Store.get "" [("a", .env ⟨.vNum 1, some "int", true, none⟩)] [] 0 "a").1 = .vNum 1 := by
  refine ⟨?_, ?_, rfl, rfl⟩
  · intro pfx st cache now k v o rest e h
    simp [Store.setMany, setManyGo, h]
  · intro pfx st st1 now k v o rest h
    simp [setManyGo, h]

theorem C5_setMany_partial_application_witness :
    Store.setMany "" [("a", .env ⟨.vNum 1, some "int", true, none⟩)] ["a"] 0
      [("b", .vStr "x", ⟨some "number", none, none⟩)] =
      ([("a", .env ⟨.vNum 1, some "int", true, none⟩)], ["a"], some (.typeMismatch "number")) ∧
    setManyGo "" 0 []
      [("a", .vNum 1, ⟨some "int", none, none⟩), ("b", .vStr "x", ⟨some "number", none, none⟩)] =
      setManyGo "" 0 [("a", .env ⟨.vNum 1, some "int", true, none⟩)]
        [("b", .vStr "x", ⟨some "number", none, none⟩)] :=
  ⟨C5_setMany_partial_application.1 "" [("a", .env ⟨.vNum 1, some "int", true, none⟩)] ["a"] 0
      "b" (.vStr "x") ⟨some "number", none, none⟩ [] (.typeMismatch "number") rfl,
    C5_setMany_partial_application.2.1 "" [] [("a", .env ⟨.vNum 1, some "int", true, none⟩)] 0
      "a" (.vNum 1) ⟨some "int", none, none⟩ [("b", .vStr "x", ⟨some "number", none, none⟩)] rfl⟩

/-- Claim C8, counterexample: the claim says that even a `setMany` call that
throws partway (after writing some entries) leaves the key cache equal to
the freshly recomputed backend scan.  In the code the `#updateKeys()` at
store.js line 122 is skipped when the loop throws: here `"a"` is written to
the backend but the cache stays `[]`, while a fresh recomputation yields
`["a"]`. -/
theorem C8_stale_cache_cex :
    Store.setMany "" [] [] 0
      [("a", .vNum 1, ⟨some "int", none, none⟩), ("b", .vStr "x", ⟨some "number", none, none⟩)] =
      ([("a", .env ⟨.vNum 1, some "int", true, none⟩)], [], some (.typeMismatch "number")) ∧
    updateKeys "" [("a", .env ⟨.vNum 1, some "int", true, none⟩)] = ["a"] ∧
    ([] : List String) ≠ ["a"] :=
  ⟨rfl, rfl, by simp⟩

/-- Claim C8 (corrected): after `set`, `remove`, `clear`, a `setMany` that
completes without throwing, and a `get` that removes an expired entry, the
key cache equals the freshly recomputed namespace scan of the backend (and
successful `setMany` performs that recomputation once, at the end of the
call); but a `setMany` that throws partway skips the refresh entirely and
leaves the cache as it was before the call, even though entries written
earlier in the batch are in the backend. -/
theorem C8_cache_recomputation :
    (∀ (pfx : String) (st : Storage) (now : Int) (k : String) (v : JSValue)
       (o : SetOptions) (st' : Storage) (c' : List String),
      Store.set pfx st now k v o = .ok (st', c') → c' = updateKeys pfx st') ∧
    (∀ (pfx k : String) (st : Storage),
      (Store.remove pfx st k).2 = updateKeys pfx (Store.remove pfx st k).1) ∧
    (∀ (pfx : String) (st : Storage),
      (Store.clear pfx st).2 = updateKeys pfx (Store.clear pfx st).1) ∧
    (∀ (pfx : String) (st : Storage) (cache : List String) (now : Int)
       (entries : List (String × JSValue × SetOptions)),
      (Store.setMany pfx st cache now entries).2.2 = none →
      (Store.setMany pfx st cache now entries).2.1 =
        updateKeys pfx (Store.setMany pfx st cache now entries).1) ∧
    (∀ (pfx : String) (st : Storage) (cache : List String) (now : Int)
       (entries : List (String × JSValue × SetOptions)) (e : StoreError),
      (Store.setMany pfx st cache now entries).2.2 = some e →
      (Store.setMany pfx st cache now entries).2.1 = cache) ∧
    (∀ (pfx k : String) (st : Storage) (cache : List String) (now : Int),
      (Store.get pfx st cache now k).2.2 = updateKeys pfx (Store.get pfx st cache now k).2.1 ∨
      ((Store.get pfx st cache now k).2.1 = st ∧ (Store.get pfx st cache now k).2.2 = cache)) := by
  refine ⟨?_, fun pfx k st => rfl, fun pfx st => rfl, ?_, ?_, ?_⟩
  · intro pfx st now k v o st' c' h
    cases h1 : setOne pfx st now k v o with
    | error e => rw [Store.set, h1] at h; cases h
    | ok s =>
      rw [Store.set, h1] at h
      cases h
      rfl
  · intro pfx st cache now entries h
    cases h1 : setManyGo pfx now st entries with
    | mk st' err =>
      cases err with
      | none => simp [Store.setMany, h1]
      | some e => simp [Store.setMany, h1] at h ⊢
  · intro pfx st cache now entries e h
    cases h1 : setManyGo pfx now st entries with
    | mk st' err =>
      cases err with
      | none => simp [Store.setMany, h1] at h
      | some e' => simp [Store.setMany, h1]
  · intro pfx k st cache now
    simp only [Store.get, Store.remove]
    repeat' split
    all_goals first
    | exact Or.inl rfl
    | exact Or.inr ⟨rfl, rfl⟩

/-- Claim C1, counterexample: the claim includes `date` among the round-trip
types, but a `Date` valid for `"date"` does not survive: `JSON.stringify`
serializes it to its string rendering, so `get` re-validates a string
against `"date"`, the `instanceof Date` check fails, the throw is caught by
`get`'s catch, and `get` returns `null` instead of the stored value. -/
theorem C1_date_roundTrip_cex :
    typeCheck (.vDate 0) (some "date") = .ok () ∧
    Store.set "" [] 0 "k" (.vDate 0) ⟨some "date", none, none⟩ =
      .ok ([("k", .env ⟨.vStr "iso:0", some "date", true, none⟩)], ["k"]) ∧
    (Store.get "" [("k", .env ⟨.vStr "iso:0", some "date", true, none⟩)] ["k"] 0 "k").1 =
      .vNull ∧
    JSValue.vNull ≠ .vDate 0 :=
  ⟨rfl, rfl, rfl, by simp⟩

/-- Claim C1 (corrected): the round trip `set(k, v, \x7btype:T\x7d)` then `get(k)`
returns `v` unchanged for the types `string`, `number`, `int`, `object`,
`array`, `boolean` — for values that the JSON serialization round trip
leaves unchanged, i.e. containing no `Date` objects (`jsonNormalize v = v`)
— with no expiration set and no intervening mutation, from any prior
instance state; for `date` (and for container values with embedded `Date`s)
the round trip fails, see the counterexample. -/
theorem C1_set_get_roundTrip
    (T pfx k : String) (st : Storage) (now now' : Int) (v : JSValue)
    (hT : T ∈ ["string", "number", "int", "object", "array", "boolean"])
    (hv : typeCheck v (some T) = .ok ())
    (hnorm : jsonNormalize v = v) :
    (Store.set pfx st now k v ⟨some T, none, none⟩).isOk = true ∧
    ∀ (st' : Storage) (c' : List String),
      Store.set pfx st now k v ⟨some T, none, none⟩ = .ok (st', c') →
      Store.get pfx st' c' now' k = (v, st', c') := by
  have hne : (T == "") = false := typeCheck_ok_ne_empty hv
  have hnt : (some T != some "no-type") = true := by
    simp only [List.mem_cons, List.not_mem_nil, or_false] at hT
    rcases hT with rfl | rfl | rfl | rfl | rfl | rfl <;> rfl
  cases hb : (match getMeta st (withPfx pfx k) with | some m => m.strict | none => true) with
  | true =>
    have hset : Store.set pfx st now k v ⟨some T, none, none⟩ =
        .ok (setItemRaw st (withPfx pfx k) (.env ⟨v, some T, true, none⟩),
          updateKeys pfx (setItemRaw st (withPfx pfx k) (.env ⟨v, some T, true, none⟩))) := by
      simp [Store.set, setOne, hb, hne, hv, hnorm]
    refine ⟨by simp [hset, Except.isOk, Except.toBool], ?_⟩
    intro st' c' h
    rw [hset] at h
    cases h
    simp [Store.get, getItemRaw_setItemRaw_self, itemTruthy, hnt, hv]
  | false =>
    have hset : Store.set pfx st now k v ⟨some T, none, none⟩ =
        .ok (setItemRaw st (withPfx pfx k) (.env ⟨v, some T, false, none⟩),
          updateKeys pfx (setItemRaw st (withPfx pfx k) (.env ⟨v, some T, false, none⟩))) := by
      simp [Store.set, setOne, hb, hne, hv, hnorm]
    refine ⟨by simp [hset, Except.isOk, Except.toBool], ?_⟩
    intro st' c' h
    rw [hset] at h
    cases h
    simp [Store.get, getItemRaw_setItemRaw_self, itemTruthy]

theorem C1_set_get_roundTrip_witness :
    (Store.set "" [] 0 "k" (.vStr "hi") ⟨some "string", none, none⟩).isOk = true ∧
    Store.get "" [("k", .env ⟨.vStr "hi", some "string", true, none⟩)] ["k"] 7 "k" =
      (.vStr "hi", [("k", .env ⟨.vStr "hi", some "string", true, none⟩)], ["k"]) :=
  ⟨(C1_set_get_roundTrip "string" "" "k" [] 0 7 (.vStr "hi") (by simp) rfl rfl).1,
    (C1_set_get_roundTrip "string" "" "k" [] 0 7 (.vStr "hi") (by simp) rfl rfl).2
      [("k", .env ⟨.vStr "hi", some "string", true, none⟩)] ["k"] rfl⟩

theorem jsSlice_withPfx (p k : String) (hp : p ≠ "") :
    jsSlice (withPfx p k) (p.length + 1) = k := by
  apply str_eq_of_data_eq
  show (withPfx p k).data.drop (p.length + 1) = k.data
  rw [withPfx_data p k hp]
  have h1 : (p.data ++ ':' :: k.data) = (p.data ++ [':']) ++ k.data := by simp
  have h2 : p.length + 1 = (p.data ++ [':']).length := by
    show p.data.length + 1 = _
    simp
  rw [h1, h2, List.drop_left]

/-- A `set` call with `strict: false` and no `expires` never throws: the
strict/type gate is disabled and the envelope is written with `strict =
false` and whatever `type` resolves to (the `"no-type"` sentinel when none
does). -/
theorem setOne_nonstrict (pfx k : String) (st : Storage) (now : Int) (v : JSValue)
    (t? : Option String) :
    ∃ t1 : Option String,
      setOne pfx st now k v ⟨t?, none, some false⟩ =
        .ok (setItemRaw st (withPfx pfx k) (.env ⟨jsonNormalize v, t1, false, none⟩)) :=
  ⟨_, rfl⟩

/-- Claim C3 (confirmed): writing a fresh key with `\x7btype: T\x7d` resolves
`strict` to `true`; a later optionless `set` on the same key inherits
`type = T` and `strict = true` from the stored envelope, so it succeeds for
a value valid for `T` (preserving `type` and `strict` in the new envelope)
and throws `TypeMismatch` for an invalid one. -/
theorem C3_strict_type_inheritance
    (pfx k T : String) (st : Storage) (now1 now2 now3 : Int) (v v2 v3 : JSValue)
    (hfresh : getItemRaw st (withPfx pfx k) = none)
    (hv : typeCheck v (some T) = .ok ())
    (hv2 : typeCheck v2 (some T) = .ok ())
    (hv3 : typeCheck v3 (some T) = .error (.typeMismatch T)) :
    Store.set pfx st now1 k v ⟨some T, none, none⟩ =
      .ok (setItemRaw st (withPfx pfx k) (.env ⟨jsonNormalize v, some T, true, none⟩),
        updateKeys pfx (setItemRaw st (withPfx pfx k)
          (.env ⟨jsonNormalize v, some T, true, none⟩))) ∧
    Store.set pfx
        (setItemRaw st (withPfx pfx k) (.env ⟨jsonNormalize v, some T, true, none⟩))
        now2 k v2 {} =
      .ok (setItemRaw
          (setItemRaw st (withPfx pfx k) (.env ⟨jsonNormalize v, some T, true, none⟩))
          (withPfx pfx k) (.env ⟨jsonNormalize v2, some T, true, none⟩),
        updateKeys pfx (setItemRaw
          (setItemRaw st (withPfx pfx k) (.env ⟨jsonNormalize v, some T, true, none⟩))
          (withPfx pfx k) (.env ⟨jsonNormalize v2, some T, true, none⟩))) ∧
    Store.set pfx
        (setItemRaw st (withPfx pfx k) (.env ⟨jsonNormalize v, some T, true, none⟩))
        now3 k v3 {} =
      .error (.typeMismatch T) := by
  have hne : (T == "") = false := typeCheck_ok_ne_empty hv
  have hmeta : getMeta st (withPfx pfx k) = none := by
    rw [getMeta, hfresh]
  have hmeta1 : getMeta
      (setItemRaw st (withPfx pfx k) (.env ⟨jsonNormalize v, some T, true, none⟩))
      (withPfx pfx k) = some ⟨some T, true⟩ := by
    rw [getMeta, getItemRaw_setItemRaw_self]
  refine ⟨?_, ?_, ?_⟩
  · simp [Store.set, setOne, hmeta, hne, hv]
  · simp [Store.set, setOne, hmeta1, hne, hv2]
  · simp [Store.set, setOne, hmeta1, hne, hv3]

theorem C3_strict_type_inheritance_witness :
    Store.set "" [] 0 "k" (.vNum 1) ⟨some "int", none, none⟩ =
      .ok ([("k", .env ⟨.vNum 1, some "int", true, none⟩)], ["k"]) ∧
    Store.set "" [("k", .env ⟨.vNum 1, some "int", true, none⟩)] 1 "k" (.vNum 2) {} =
      .ok ([("k", .env ⟨.vNum 2, some "int", true, none⟩)], ["k"]) ∧
    Store.set "" [("k", .env ⟨.vNum 1, some "int", true, none⟩)] 2 "k" (.vStr "x") {} =
      .error (.typeMismatch "int") :=
  C3_strict_type_inheritance "" "k" "int" [] 0 1 2 (.vNum 1) (.vNum 2) (.vStr "x")
    rfl rfl rfl rfl

/-- Claim C4 (confirmed): a key written with a truthy `expires` gets
`expiresAt = now + duration`; once the clock passes that timestamp, `get`
returns the not-found sentinel and removes the entry (refreshing the
cache), `has` returns `false`, and `isExpired` returns `true` while the
entry is still in the backend — `isExpired` takes no storage argument back,
it only reads, and the entry is removed only by `get`/`has`. -/
theorem C4_lazy_expiration
    (pfx k T : String) (st : Storage) (now now' : Int) (v : JSValue) (ev : JSValue) (d : ℚ)
    (hfresh : getItemRaw st (withPfx pfx k) = none)
    (hv : typeCheck v (some T) = .ok ())
    (htr : jsTruthy ev = true)
    (hpe : parseExpires ev = .ok d)
    (hnz : intAddRat now d ≠ 0)
    (hlt : (now' : ℚ) > intAddRat now d) :
    Store.set pfx st now k v ⟨some T, some ev, none⟩ =
      .ok (setItemRaw st (withPfx pfx k)
          (.env ⟨jsonNormalize v, some T, true, some (intAddRat now d)⟩),
        updateKeys pfx (setItemRaw st (withPfx pfx k)
          (.env ⟨jsonNormalize v, some T, true, some (intAddRat now d)⟩))) ∧
    (∀ (st1 : Storage) (c1 : List String),
      getItemRaw st1 (withPfx pfx k) =
        some (.env ⟨jsonNormalize v, some T, true, some (intAddRat now d)⟩) →
      Store.get pfx st1 c1 now' k =
        (.vNull, removeItemRaw st1 (withPfx pfx k),
          updateKeys pfx (removeItemRaw st1 (withPfx pfx k))) ∧
      (Store.has pfx st1 c1 now' k).1 = false ∧
      Store.isExpired pfx st1 now' k = true) ∧
    intAddRat now d = (now : ℚ) + d := by
  have hne : (T == "") = false := typeCheck_ok_ne_empty hv
  have hmeta : getMeta st (withPfx pfx k) = none := by
    rw [getMeta, hfresh]
  have hbne : (intAddRat now d != 0) = true := by
    simpa using hnz
  have hdec : decide ((now' : ℚ) > intAddRat now d) = true := by
    simpa using hlt
  refine ⟨?_, ?_, intAddRat_eq now d⟩
  · simp [Store.set, setOne, hmeta, hne, hv, htr, hpe]
  · intro st1 c1 hlook
    refine ⟨?_, ?_, ?_⟩
    · simp [Store.get, hlook, itemTruthy, hbne, hdec, Store.remove]
    · simp [Store.has, Store.get, hlook, itemTruthy, hbne, hdec, Store.remove, isNullB]
    · simp [Store.isExpired, hlook, itemTruthy, hbne, hdec]

theorem C4_lazy_expiration_witness :
    Store.set "" [] 100 "k" (.vNum 7) ⟨some "int", some (.vNum 10), none⟩ =
      .ok ([("k", .env ⟨.vNum 7, some "int", true, some (intAddRat 100 10)⟩)], ["k"]) ∧
    Store.get "" [("k", .env ⟨.vNum 7, some "int", true, some (intAddRat 100 10)⟩)]
        ["k"] 111 "k" = (.vNull, [], []) ∧
    (Store.has "" [("k", .env ⟨.vNum 7, some "int", true, some (intAddRat 100 10)⟩)]
        ["k"] 111 "k").1 = false ∧
    Store.isExpired "" [("k", .env ⟨.vNum 7, some "int", true, some (intAddRat 100 10)⟩)]
        111 "k" = true := by
  have h := C4_lazy_expiration "" "k" "int" [] 100 111 (.vNum 7) (.vNum 10) 10
    rfl rfl rfl rfl (by decide) (by decide)
  have h2 := h.2.1 [("k", .env ⟨.vNum 7, some "int", true, some (intAddRat 100 10)⟩)]
    ["k"] rfl
  exact ⟨h.1, h2.1, h2.2.1, h2.2.2⟩

theorem listStarts_restrict (xs ys zs : List Char) (h : listStarts (ys ++ zs) xs = true)
    (hl : xs.length ≤ ys.length) : listStarts ys xs = true := by
  induction xs generalizing ys with
  | nil => simp [listStarts]
  | cons c cs ih =>
    cases ys with
    | nil => simp at hl
    | cons d ds =>
      simp only [List.cons_append, listStarts, Bool.and_eq_true, beq_iff_eq] at h ⊢
      exact ⟨h.1, ih ds h.2 (by simpa using hl)⟩

theorem getItemRaw_clearFilter (p q : String) (st : Storage)
    (hq : jsStartsWith q (p ++ ":") = false) :
    getItemRaw (st.filter fun e => !jsStartsWith e.1 (p ++ ":")) q = getItemRaw st q := by
  induction st with
  | nil => rfl
  | cons e rest ih =>
    by_cases hk : jsStartsWith e.1 (p ++ ":") = true
    · have hne : e.1 ≠ q := fun h => by rw [h, hq] at hk; cases hk
      simp [List.filter_cons, hk, getItemRaw, hne, ih]
    · by_cases he : e.1 = q
      · simp [List.filter_cons, hk, getItemRaw, he, hq]
      · simp [List.filter_cons, hk, getItemRaw, he, hq, ih]

theorem strData_append_colon (a : String) : (a ++ ":").data = a.data ++ [':'] := rfl

/-- A full key inside namespace `b` (it starts with `b + ":"`) cannot also
start with `a + ":"` when the two namespaces are distinct and neither
prefix-extends the other. -/
theorem ns_key_not_in_other (a b key' : String) (hab : a ≠ b)
    (hba : jsStartsWith b (a ++ ":") = false)
    (hab2 : jsStartsWith a (b ++ ":") = false)
    (h1 : jsStartsWith key' (b ++ ":") = true) :
    jsStartsWith key' (a ++ ":") = false := by
  cases hx : jsStartsWith key' (a ++ ":") with
  | false => rfl
  | true =>
    exfalso
    have h1' : listStarts key'.data (b.data ++ [':']) = true := by
      simpa [jsStartsWith, strData_append_colon] using h1
    have h2' : listStarts key'.data (a.data ++ [':']) = true := by
      simpa [jsStartsWith, strData_append_colon] using hx
    rcases Nat.le_total ((a.data ++ [':']).length) ((b.data ++ [':']).length) with hle | hle
    · have hsp : listStarts (b.data ++ [':']) (a.data ++ [':']) = true :=
        listStarts_of_listStarts_le key'.data _ _ h2' h1' hle
      rcases Nat.lt_or_ge ((a.data ++ [':']).length) ((b.data ++ [':']).length) with hlt | hge
      · have hlb : (a.data ++ [':']).length ≤ b.data.length := by
          simp only [List.length_append, List.length_cons, List.length_nil] at hlt ⊢
          omega
        have : listStarts b.data (a.data ++ [':']) = true :=
          listStarts_restrict _ _ [':'] hsp hlb
        rw [show jsStartsWith b (a ++ ":") = listStarts b.data (a.data ++ [':']) from rfl, this]
          at hba
        cases hba
      · have heq : (a.data ++ [':']).length = (b.data ++ [':']).length := Nat.le_antisymm hle hge
        have := listStarts_eq_of_length_eq _ _ hsp heq
        have hd : a.data = b.data := List.append_inj_left this (by
          have := congrArg List.length this
          simpa using this)
        exact hab (str_eq_of_data_eq hd)
    · have hsp : listStarts (a.data ++ [':']) (b.data ++ [':']) = true :=
        listStarts_of_listStarts_le key'.data _ _ h1' h2' hle
      rcases Nat.lt_or_ge ((b.data ++ [':']).length) ((a.data ++ [':']).length) with hlt | hge
      · have hlb : (b.data ++ [':']).length ≤ a.data.length := by
          simp only [List.length_append, List.length_cons, List.length_nil] at hlt ⊢
          omega
        have : listStarts a.data (b.data ++ [':']) = true :=
          listStarts_restrict _ _ [':'] hsp hlb
        rw [show jsStartsWith a (b ++ ":") = listStarts a.data (b.data ++ [':']) from rfl, this]
          at hab2
        cases hab2
      · have heq : (b.data ++ [':']).length = (a.data ++ [':']).length := Nat.le_antisymm hle hge
        have := listStarts_eq_of_length_eq _ _ hsp heq
        have hd : b.data = a.data := List.append_inj_left this (by
          have := congrArg List.length this
          simpa using this)
        exact hab (str_eq_of_data_eq hd.symm)

/-- A successful write only touches the full key `withPfx pfx key`. -/
theorem setOne_ok_shape {pfx : String} {st : Storage} {now : Int} {key : String}
    {value : JSValue} {options : SetOptions} {st' : Storage}
    (h : setOne pfx st now key value options = .ok st') :
    ∃ e : Envelope, st' = setItemRaw st (withPfx pfx key) (.env e) := by
  simp only [setOne] at h
  split at h
  · cases h
  · split at h
    · cases h
    · split at h
      · cases h
      · cases h
        exact ⟨_, rfl⟩

theorem set_ok_shape {pfx : String} {st : Storage} {now : Int} {key : String}
    {value : JSValue} {options : SetOptions} {st' : Storage} {c' : List String}
    (h : Store.set pfx st now key value options = .ok (st', c')) :
    (∃ e : Envelope, st' = setItemRaw st (withPfx pfx key) (.env e)) ∧
      c' = updateKeys pfx st' := by
  rw [Store.set] at h
  cases h1 : setOne pfx st now key value options with
  | error e => rw [h1] at h; cases h
  | ok s =>
    rw [h1] at h
    cases h
    exact ⟨setOne_ok_shape h1, rfl⟩

theorem isJsWs_of_isDigit (c : Char) (h : c.isDigit = true) : isJsWs c = false := by
  simp only [Char.isDigit, Bool.and_eq_true, decide_eq_true_eq] at h
  simp only [isJsWs, Bool.or_eq_false_iff, beq_eq_false_iff_ne, ne_eq]
  refine ⟨⟨⟨⟨⟨?_, ?_⟩, ?_⟩, ?_⟩, ?_⟩, ?_⟩ <;>
    (rintro rfl; exact absurd h (by decide))

theorem jsCharLower_of_isDigit (c : Char) (h : c.isDigit = true) : jsCharLower c = c := by
  simp only [Char.isDigit, Bool.and_eq_true, decide_eq_true_eq] at h
  rw [jsCharLower, if_neg]
  rintro ⟨h1, h2⟩
  have hle : ('A' : Char) ≤ '9' := le_trans h1 h.2
  exact absurd hle (by decide)

theorem map_jsCharLower_digits (ds : List Char) (h : ∀ c ∈ ds, c.isDigit = true) :
    ds.map jsCharLower = ds := by
  induction ds with
  | nil => rfl
  | cons c cs ih =>
    rw [List.map_cons, jsCharLower_of_isDigit c (h c (by simp)),
      ih fun c' hc' => h c' (by simp [hc'])]

theorem takeWhile_all_append (f : Char → Bool) (ds us : List Char)
    (h : ∀ c ∈ ds, f c = true) (hu : ∀ c, us.head? = some c → f c = false) :
    (ds ++ us).takeWhile f = ds := by
  induction ds with
  | nil =>
    cases us with
    | nil => rfl
    | cons c cs => simp [List.takeWhile_cons, hu c rfl]
  | cons c cs ih =>
    simp [List.takeWhile_cons, h c (by simp), ih fun c' hc' => h c' (by simp [hc'])]

theorem dropWhile_all_append (f : Char → Bool) (ds us : List Char)
    (h : ∀ c ∈ ds, f c = true) (hu : ∀ c, us.head? = some c → f c = false) :
    (ds ++ us).dropWhile f = us := by
  induction ds with
  | nil =>
    cases us with
    | nil => rfl
    | cons c cs => simp [List.dropWhile_cons, hu c rfl]
  | cons c cs ih =>
    simp [List.dropWhile_cons, h c (by simp), ih fun c' hc' => h c' (by simp [hc'])]

theorem dropWhile_head_false (f : Char → Bool) (l : List Char)
    (h : ∀ c, l.head? = some c → f c = false) : l.dropWhile f = l := by
  cases l with
  | nil => rfl
  | cons c cs => simp [List.dropWhile_cons, h c rfl]

theorem jsTrim_digits_unit (ds : List Char) (u : String)
    (hne : ds ≠ []) (hd : ∀ c ∈ ds, c.isDigit = true)
    (hwst : ∀ c, u.data.reverse.head? = some c → isJsWs c = false)
    (hun : u.data ≠ []) :
    jsTrim (String.mk ds ++ u) = String.mk (ds ++ u.data) := by
  apply str_eq_of_data_eq
  show (((ds ++ u.data).dropWhile isJsWs).reverse.dropWhile isJsWs).reverse = ds ++ u.data
  have h1 : (ds ++ u.data).dropWhile isJsWs = ds ++ u.data := by
    apply dropWhile_head_false
    cases ds with
    | nil => exact absurd rfl hne
    | cons d ds' =>
      intro c hc
      simp only [List.cons_append, List.head?_cons, Option.some.injEq] at hc
      exact hc ▸ isJsWs_of_isDigit d (hd d (by simp))
  have h2 : ((ds ++ u.data).reverse).dropWhile isJsWs = (ds ++ u.data).reverse := by
    apply dropWhile_head_false
    rw [List.reverse_append]
    cases hu' : u.data.reverse with
    | nil => exact absurd (by simpa using hu') hun
    | cons c cs =>
      intro c' hc'
      simp only [hu', List.cons_append, List.head?_cons, Option.some.injEq] at hc'
      exact hc' ▸ hwst c (by simp [hu'])
  rw [h1, h2, List.reverse_reverse]

theorem matchExpires_digits_unit (ds : List Char) (u : String) (m : Nat)
    (hne : ds ≠ []) (hd : ∀ c ∈ ds, c.isDigit = true)
    (hu : unitToMs u = some m)
    (hlow : u.data.map jsCharLower = u.data)
    (hwsh : ∀ c, u.data.head? = some c → isJsWs c = false)
    (hwst : ∀ c, u.data.reverse.head? = some c → isJsWs c = false)
    (hdig : ∀ c, u.data.head? = some c → c.isDigit = false)
    (hun : u.data ≠ []) :
    matchExpires (String.mk ds ++ u) = some (ds, u) := by
  have htrim := jsTrim_digits_unit ds u hne hd hwst hun
  have hlower : jsToLower (jsTrim (String.mk ds ++ u)) = String.mk (ds ++ u.data) := by
    rw [htrim]
    apply str_eq_of_data_eq
    show (ds ++ u.data).map jsCharLower = ds ++ u.data
    rw [List.map_append, map_jsCharLower_digits ds hd, hlow]
  rw [matchExpires, hlower]
  have htake : (ds ++ u.data).takeWhile Char.isDigit = ds :=
    takeWhile_all_append _ _ _ hd hdig
  have hdrop : (ds ++ u.data).dropWhile Char.isDigit = u.data :=
    dropWhile_all_append _ _ _ hd hdig
  have hws : u.data.dropWhile isJsWs = u.data := dropWhile_head_false _ _ hwsh
  have hmk : String.mk u.data = u := by cases u; rfl
  have hemp : ds.isEmpty = false := by cases ds with
    | nil => exact absurd rfl hne
    | cons c cs => rfl
  simp only [hemp, Bool.false_eq_true, if_false, htake, hdrop, hws, hmk, hu]

theorem parseExpires_digits_unit (ds : List Char) (u : String) (m : Nat)
    (hne : ds ≠ []) (hd : ∀ c ∈ ds, c.isDigit = true)
    (hu : unitToMs u = some m) :
    parseExpires (.vStr (String.mk ds ++ u)) = .ok ((digitsToNat ds * m : ℕ) : ℚ) := by
  have hcases : (u = "s" ∧ m = 1000) ∨ (u = "sec" ∧ m = 1000) ∨
      (u = "m" ∧ m = 60 * 1000) ∨ (u = "min" ∧ m = 60 * 1000) ∨
      (u = "h" ∧ m = 60 * 60 * 1000) ∨ (u = "d" ∧ m = 24 * 60 * 60 * 1000) := by
    rw [unitToMs] at hu
    split_ifs at hu with h1 h2 h3 h4 h5 h6
    · exact Or.inl ⟨by simpa using h1, by simpa using hu.symm⟩
    · exact Or.inr (Or.inl ⟨by simpa using h2, by simpa using hu.symm⟩)
    · exact Or.inr (Or.inr (Or.inl ⟨by simpa using h3, by simpa using hu.symm⟩))
    · exact Or.inr (Or.inr (Or.inr (Or.inl ⟨by simpa using h4, by simpa using hu.symm⟩)))
    · exact Or.inr (Or.inr (Or.inr (Or.inr (Or.inl ⟨by simpa using h5, by simpa using hu.symm⟩))))
    · exact Or.inr (Or.inr (Or.inr (Or.inr (Or.inr ⟨by simpa using h6, by simpa using hu.symm⟩))))
  have hmatch : matchExpires (String.mk ds ++ u) = some (ds, u) := by
    rcases hcases with ⟨rfl, rfl⟩ | ⟨rfl, rfl⟩ | ⟨rfl, rfl⟩ | ⟨rfl, rfl⟩ | ⟨rfl, rfl⟩ | ⟨rfl, rfl⟩ <;>
      exact matchExpires_digits_unit ds _ _ hne hd rfl (by decide)
        (by intro c hc; cases hc; decide) (by intro c hc; cases hc; decide)
        (by intro c hc; cases hc; decide) (by decide)
  rw [parseExpires, hmatch]
  simp only [hu]

/-- Claim C7, counterexample: the claim says a non-negative integer
`expires` yields `expiresAt = now + n`, but `expires: 0` is falsy, so the
`expires ? ... : null` at store.js line 82 never calls `#parseExpires` and
stores `expiresAt = null` — not `now + 0`. -/
theorem C7_zero_expires_cex :
    Store.set "" [] 100 "k" (.vNum 1) ⟨some "int", some (.vNum 0), none⟩ =
      .ok ([("k", .env ⟨.vNum 1, some "int", true, none⟩)], ["k"]) ∧
    (none : Option ℚ) ≠ some (intAddRat 100 0) :=
  ⟨rfl, by simp⟩

/-- Claim C7 (corrected): `expires` is gated by JS truthiness before
parsing.  A truthy number `n` (`n ≠ 0`; fractional or negative included)
yields `expiresAt = now + n`; a digit string followed by optional
whitespace and a unit from \x7bs, sec, m, min, h, d\x7d (case-insensitive,
surrounding whitespace trimmed) yields `now + digits * multiplier`
(s/sec = 1000ms, m/min = 60000ms, h = 3600000ms, d = 86400000ms); any other
truthy string throws; any truthy non-number/non-string throws a TypeError;
but every FALSY `expires` — `0`, the empty string, `null`, `false` — is
never parsed and yields `expiresAt = null`, and an omitted `expires` yields
`null` as well. -/
theorem C7_expires_parsing :
    (∀ q : ℚ, parseExpires (.vNum q) = .ok q) ∧
    (∀ (ds : List Char) (u : String) (m : Nat), ds ≠ [] →
      (∀ c ∈ ds, c.isDigit = true) → unitToMs u = some m →
      parseExpires (.vStr (String.mk ds ++ u)) = .ok ((digitsToNat ds * m : ℕ) : ℚ)) ∧
    (parseExpires (.vStr " 30S ") = .ok ((30000 : ℕ) : ℚ) ∧
      parseExpires (.vStr "2 Min") = .ok ((120000 : ℕ) : ℚ) ∧
      parseExpires (.vStr "1d") = .ok ((86400000 : ℕ) : ℚ)) ∧
    (∀ s : String, matchExpires s = none →
      parseExpires (.vStr s) = .error (.invalidExpiresFormat s)) ∧
    (parseExpires .vNull = .error .expiresTypeError ∧
      (∀ b, parseExpires (.vBool b) = .error .expiresTypeError) ∧
      (∀ xs, parseExpires (.vArr xs) = .error .expiresTypeError) ∧
      (∀ fs, parseExpires (.vObj fs) = .error .expiresTypeError) ∧
      (∀ ms, parseExpires (.vDate ms) = .error .expiresTypeError)) ∧
    (∀ (pfx k T : String) (st : Storage) (now : Int) (v ev : JSValue) (d : ℚ),
      getItemRaw st (withPfx pfx k) = none →
      typeCheck v (some T) = .ok () →
      jsTruthy ev = true →
      parseExpires ev = .ok d →
      Store.set pfx st now k v ⟨some T, some ev, none⟩ =
        .ok (setItemRaw st (withPfx pfx k)
            (.env ⟨jsonNormalize v, some T, true, some (intAddRat now d)⟩),
          updateKeys pfx (setItemRaw st (withPfx pfx k)
            (.env ⟨jsonNormalize v, some T, true, some (intAddRat now d)⟩))) ∧
      intAddRat now d = (now : ℚ) + d) ∧
    (∀ (pfx k T : String) (st : Storage) (now : Int) (v ev : JSValue),
      getItemRaw st (withPfx pfx k) = none →
      typeCheck v (some T) = .ok () →
      jsTruthy ev = false →
      Store.set pfx st now k v ⟨some T, some ev, none⟩ =
        .ok (setItemRaw st (withPfx pfx k) (.env ⟨jsonNormalize v, some T, true, none⟩),
          updateKeys pfx (setItemRaw st (withPfx pfx k)
            (.env ⟨jsonNormalize v, some T, true, none⟩)))) ∧
    (∀ (pfx k T : String) (st : Storage) (now : Int) (v ev : JSValue) (err : StoreError),
      getItemRaw st (withPfx pfx k) = none →
      typeCheck v (some T) = .ok () →
      jsTruthy ev = true →
      parseExpires ev = .error err →
      Store.set pfx st now k v ⟨some T, some ev, none⟩ = .error err) := by
  refine ⟨fun q => rfl, parseExpires_digits_unit, ⟨by decide, by decide, by decide⟩,
    ?_, ⟨rfl, fun b => rfl, fun xs => rfl, fun fs => rfl, fun ms => rfl⟩, ?_, ?_, ?_⟩
  · intro s hm
    rw [parseExpires, hm]
  · intro pfx k T st now v ev d hfresh hv htr hpe
    have hne : (T == "") = false := typeCheck_ok_ne_empty hv
    have hmeta : getMeta st (withPfx pfx k) = none := by rw [getMeta, hfresh]
    exact ⟨by simp [Store.set, setOne, hmeta, hne, hv, htr, hpe], intAddRat_eq now d⟩
  · intro pfx k T st now v ev hfresh hv htr
    have hne : (T == "") = false := typeCheck_ok_ne_empty hv
    have hmeta : getMeta st (withPfx pfx k) = none := by rw [getMeta, hfresh]
    simp [Store.set, setOne, hmeta, hne, hv, htr]
  · intro pfx k T st now v ev err hfresh hv htr hpe
    have hne : (T == "") = false := typeCheck_ok_ne_empty hv
    have hmeta : getMeta st (withPfx pfx k) = none := by rw [getMeta, hfresh]
    simp [Store.set, setOne, hmeta, hne, hv, htr, hpe]

theorem C7_expires_parsing_witness :
    parseExpires (.vNum 10) = .ok 10 ∧
    parseExpires (.vStr (String.mk ['4', '5'] ++ "min")) = .ok ((digitsToNat ['4', '5'] * 60000 : ℕ) : ℚ) ∧
    parseExpires (.vStr "later") = .error (.invalidExpiresFormat "later") ∧
    Store.set "" [] 100 "k" (.vNum 7) ⟨some "int", some (.vNum 10), none⟩ =
      .ok ([("k", .env ⟨.vNum 7, some "int", true, some (intAddRat 100 10)⟩)], ["k"]) ∧
    Store.set "" [] 100 "k" (.vNum 7) ⟨some "int", some (.vStr ""), none⟩ =
      .ok ([("k", .env ⟨.vNum 7, some "int", true, none⟩)], ["k"]) ∧
    Store.set "" [] 100 "k" (.vNum 7) ⟨some "int", some (.vBool true), none⟩ =
      .error .expiresTypeError := by
  refine ⟨C7_expires_parsing.1 10,
    C7_expires_parsing.2.1 ['4', '5'] "min" 60000 (by decide) (by decide) (by decide),
    C7_expires_parsing.2.2.2.1 "later" (by decide), ?_, ?_, ?_⟩
  · exact (C7_expires_parsing.2.2.2.2.2.1 "" "k" "int" [] 100 (.vNum 7) (.vNum 10) 10
      rfl rfl rfl rfl).1
  · exact C7_expires_parsing.2.2.2.2.2.2.1 "" "k" "int" [] 100 (.vNum 7) (.vStr "")
      rfl rfl rfl
  · exact C7_expires_parsing.2.2.2.2.2.2.2 "" "k" "int" [] 100 (.vNum 7) (.vBool true)
      .expiresTypeError rfl rfl rfl rfl

/-- Claim C6, counterexample: the claim says that for EVERY pair of
distinct namespace names, `ns(a).clear()` removes no backend key belonging
to `ns(b)`.  Take the distinct (and individually valid) names `a = "p"` and
`b = "p:q"`: the key `"p:q:x"` written through `ns("p:q")` starts with
`"p:"`, so `ns("p").clear()` deletes it. -/
theorem C6_nested_ns_cex :
    jsTrim "p" ≠ "" ∧ jsTrim "p:q" ≠ "" ∧ "p" ≠ "p:q" ∧
    Store.set "p:q" [] 0 "x" (.vNum 1) ⟨some "int", none, none⟩ =
      .ok ([("p:q:x", .env ⟨.vNum 1, some "int", true, none⟩)], ["p:q:x"]) ∧
    withPfx "p:q" "x" = "p:q:x" ∧
    Store.clear "p" [("p:q:x", .env ⟨.vNum 1, some "int", true, none⟩)] = ([], []) ∧
    getItemRaw ([] : Storage) "p:q:x" = none :=
  ⟨by decide, by decide, by decide, rfl, rfl, rfl, rfl⟩

/-- Claim C6 (corrected): writes through `ns(a)` are invisible through
`ns(b)` for distinct names `a ≠ b` — `ns(a).set` never changes the binding
of `ns(b)`'s full key for the same local key, so after it `ns(b).get(k)`
still returns `null` whenever `b`'s key was absent; `ns(a).clear()` spares
every key of `ns(b)` PROVIDED neither namespace prefix-extends the other
(without that proviso the claim fails, see the counterexample); and an
instance with prefix `p` only ever touches backend keys starting with
`p + ":"` — `set`, `clear` and `get` leave every other key's binding
unchanged. -/
theorem C6_namespace_isolation :
    (∀ (a b k : String) (st : Storage) (now : Int) (v : JSValue) (o : SetOptions)
       (st' : Storage) (c' : List String),
      a ≠ "" → b ≠ "" → a ≠ b →
      Store.set a st now k v o = .ok (st', c') →
      getItemRaw st' (withPfx b k) = getItemRaw st (withPfx b k) ∧
      (getItemRaw st (withPfx b k) = none →
        ∀ (cb : List String) (now' : Int),
          Store.get b st' cb now' k = (.vNull, st', cb))) ∧
    (∀ (a b key' : String) (st : Storage),
      a ≠ "" → a ≠ b →
      jsStartsWith b (a ++ ":") = false →
      jsStartsWith a (b ++ ":") = false →
      jsStartsWith key' (b ++ ":") = true →
      getItemRaw (Store.clear a st).1 key' = getItemRaw st key') ∧
    (∀ (p k q : String) (st : Storage) (now : Int) (v : JSValue) (o : SetOptions),
      p ≠ "" → jsStartsWith q (p ++ ":") = false →
      jsStartsWith (withPfx p k) (p ++ ":") = true ∧
      (∀ (st' : Storage) (c' : List String),
        Store.set p st now k v o = .ok (st', c') →
        getItemRaw st' q = getItemRaw st q) ∧
      getItemRaw (Store.clear p st).1 q = getItemRaw st q ∧
      (∀ cache : List String,
        getItemRaw (Store.get p st cache now k).2.1 q = getItemRaw st q)) := by
  have keyNe : ∀ (p q fk : String), jsStartsWith fk (p ++ ":") = true →
      jsStartsWith q (p ++ ":") = false → q ≠ fk := by
    intro p q fk h1 h2 h
    rw [h, h1] at h2
    cases h2
  refine ⟨?_, ?_, ?_⟩
  · intro a b k st now v o st' c' ha hb hab hset
    obtain ⟨⟨e, rfl⟩, rfl⟩ := set_ok_shape hset
    have hne : withPfx b k ≠ withPfx a k := fun h => hab (withPfx_inj_left ha hb h.symm)
    have hpre : getItemRaw (setItemRaw st (withPfx a k) (.env e)) (withPfx b k) =
        getItemRaw st (withPfx b k) := getItemRaw_setItemRaw_ne st _ _ _ hne
    refine ⟨hpre, ?_⟩
    intro hnone cb now'
    have hlook : getItemRaw (setItemRaw st (withPfx a k) (.env e)) (withPfx b k) = none :=
      hpre.trans hnone
    simp [Store.get, hlook, itemTruthy]
  · intro a b key' st ha hab hba hab2 hkey
    have hq : jsStartsWith key' (a ++ ":") = false :=
      ns_key_not_in_other a b key' hab hba hab2 hkey
    simp only [Store.clear, ha, ne_eq, not_false_eq_true, if_true]
    exact getItemRaw_clearFilter a key' st hq
  · intro p k q st now v o hp hq
    have hfk : jsStartsWith (withPfx p k) (p ++ ":") = true := jsStartsWith_withPfx p k hp
    have hne : q ≠ withPfx p k := keyNe p q (withPfx p k) hfk hq
    refine ⟨hfk, ?_, ?_, ?_⟩
    · intro st' c' hset
      obtain ⟨⟨e, rfl⟩, rfl⟩ := set_ok_shape hset
      exact getItemRaw_setItemRaw_ne st _ _ _ hne
    · simp only [Store.clear, hp, ne_eq, not_false_eq_true, if_true]
      exact getItemRaw_clearFilter p q st hq
    · intro cache
      simp only [Store.get, Store.remove]
      repeat' split
      all_goals first
      | rfl
      | exact getItemRaw_removeItemRaw_ne st _ _ hne

theorem C6_namespace_isolation_witness :
    Store.get "b" [("a:x", .env ⟨.vNum 1, some "int", true, none⟩)] [] 5 "x" =
      (.vNull, [("a:x", .env ⟨.vNum 1, some "int", true, none⟩)], []) ∧
    getItemRaw
        (Store.clear "a" [("b:y", .env ⟨.vNum 2, some "int", true, none⟩)]).1 "b:y" =
      getItemRaw [("b:y", .env ⟨.vNum 2, some "int", true, none⟩)] "b:y" ∧
    getItemRaw
        (Store.get "a" [("b:y", .env ⟨.vNum 2, some "int", true, none⟩)] [] 5 "x").2.1 "b:y" =
      getItemRaw [("b:y", .env ⟨.vNum 2, some "int", true, none⟩)] "b:y" := by
  have h1 := (C6_namespace_isolation.1 "a" "b" "x" [] 0 (.vNum 1)
    ⟨some "int", none, none⟩ [("a:x", .env ⟨.vNum 1, some "int", true, none⟩)] ["a:x"]
    (by decide) (by decide) (by decide) rfl).2 rfl [] 5
  have h2 := C6_namespace_isolation.2.1 "a" "b" "b:y"
    [("b:y", .env ⟨.vNum 2, some "int", true, none⟩)]
    (by decide) (by decide) (by decide) (by decide) (by decide)
  have h3 := (C6_namespace_isolation.2.2 "a" "x" "b:y"
    [("b:y", .env ⟨.vNum 2, some "int", true, none⟩)] 5 (.vNum 1)
    ⟨some "int", none, none⟩ (by decide) (by decide)).2.2.2 []
  exact ⟨h1, h2, h3⟩

/-- Claim C9 (confirmed): a stored `null` is indistinguishable from absence
at the read interface.  `set(k, null, \x7bstrict: false\x7d)` always succeeds;
afterwards `get(k)` returns the JS value `null` — the very same value used
as the not-found sentinel — `has(k)` is `false` (it tests `get(key) !==
null`), and `getAll()` omits `k` (shown for the single-entry instance),
even though the envelope still sits in the backend and the full key is in
the keys cache. -/
theorem C9_null_value_indistinguishable
    (pfx k : String) (st : Storage) (now now' : Int) :
    (Store.set pfx st now k .vNull ⟨none, none, some false⟩).isOk = true ∧
    (∀ (st1 : Storage) (c1 : List String),
      Store.set pfx st now k .vNull ⟨none, none, some false⟩ = .ok (st1, c1) →
      Store.get pfx st1 c1 now' k = (.vNull, st1, c1) ∧
      (Store.has pfx st1 c1 now' k).1 = false ∧
      withPfx pfx k ∈ c1 ∧
      (getItemRaw st1 (withPfx pfx k)).isSome = true) ∧
    Store.set pfx [] now k .vNull ⟨none, none, some false⟩ =
      .ok ([(withPfx pfx k, .env ⟨.vNull, some "no-type", false, none⟩)], [withPfx pfx k]) ∧
    (Store.getAll pfx [(withPfx pfx k, .env ⟨.vNull, some "no-type", false, none⟩)]
        [withPfx pfx k] now').1 = [] := by
  obtain ⟨t1, hone⟩ := setOne_nonstrict pfx k st now .vNull none
  have hset : Store.set pfx st now k .vNull ⟨none, none, some false⟩ =
      .ok (setItemRaw st (withPfx pfx k) (.env ⟨.vNull, t1, false, none⟩),
        updateKeys pfx (setItemRaw st (withPfx pfx k) (.env ⟨.vNull, t1, false, none⟩))) := by
    rw [Store.set, hone]
    rfl
  have hstart : (if pfx ≠ "" then jsStartsWith (withPfx pfx k) (pfx ++ ":") else true) = true := by
    by_cases hp : pfx = ""
    · simp [hp]
    · simp [hp, jsStartsWith_withPfx pfx k hp]
  have hgetnull : ∀ (st1 : Storage) (c1 : List String),
      getItemRaw st1 (withPfx pfx k) = some (.env ⟨.vNull, t1, false, none⟩) →
      Store.get pfx st1 c1 now' k = (.vNull, st1, c1) := by
    intro st1 c1 hlook
    simp [Store.get, hlook, itemTruthy]
  refine ⟨by simp [hset, Except.isOk, Except.toBool], ?_, ?_, ?_⟩
  · intro st1 c1 h
    rw [hset] at h
    cases h
    have hlook := getItemRaw_setItemRaw_self st (withPfx pfx k)
      (.env ⟨.vNull, t1, false, none⟩)
    refine ⟨hgetnull _ _ hlook, ?_, ?_, by simp [hlook]⟩
    · simp [Store.has, hgetnull _ _ hlook, isNullB]
    · exact List.mem_filter.mpr ⟨mem_storageKeys_setItemRaw st (withPfx pfx k) _, by
        simpa using hstart⟩
  · have hs1 : Store.set pfx [] now k .vNull ⟨none, none, some false⟩ =
        .ok ([(withPfx pfx k, .env ⟨.vNull, some "no-type", false, none⟩)],
          updateKeys pfx [(withPfx pfx k, .env ⟨.vNull, some "no-type", false, none⟩)]) := rfl
    have hu : updateKeys pfx [(withPfx pfx k, .env ⟨.vNull, some "no-type", false, none⟩)] =
        [withPfx pfx k] := by
      simp [updateKeys, storageKeys, List.filter, hstart]
    rw [hs1, hu]
  · have hkey : (if pfx ≠ "" then jsSlice (withPfx pfx k) (pfx.length + 1) else withPfx pfx k)
        = k := by
      by_cases hp : pfx = ""
      · simp [hp, withPfx]
      · simp [hp, jsSlice_withPfx pfx k hp]
    have hlook : getItemRaw [(withPfx pfx k, .env ⟨.vNull, some "no-type", false, none⟩)]
        (withPfx pfx k) = some (.env ⟨.vNull, some "no-type", false, none⟩) := by
      simp [getItemRaw]
    have hget : Store.get pfx [(withPfx pfx k, .env ⟨.vNull, some "no-type", false, none⟩)]
        [withPfx pfx k] now' k =
        (.vNull, [(withPfx pfx k, .env ⟨.vNull, some "no-type", false, none⟩)],
          [withPfx pfx k]) := by
      simp [Store.get, hlook, itemTruthy]
    simp [Store.getAll, getAllGo, hkey, hget]

theorem C9_null_value_indistinguishable_witness :
    (Store.set "" [] 0 "k" .vNull ⟨none, none, some false⟩).isOk = true ∧
    Store.get "" [("k", .env ⟨.vNull, some "no-type", false, none⟩)] ["k"] 5 "k" =
      (.vNull, [("k", .env ⟨.vNull, some "no-type", false, none⟩)], ["k"]) ∧
    (Store.has "" [("k", .env ⟨.vNull, some "no-type", false, none⟩)] ["k"] 5 "k").1 = false ∧
    "k" ∈ ["k"] ∧
    (Store.getAll "" [("k", .env ⟨.vNull, some "no-type", false, none⟩)] ["k"] 5).1 = [] := by
  have h := C9_null_value_indistinguishable "" "k" [] 0 5
  have h2 := h.2.1 [("k", .env ⟨.vNull, some "no-type", false, none⟩)] ["k"]
    (by simp only [withPfx] at h ⊢; exact h.2.2.1)
  refine ⟨h.1, h2.1, h2.2.1, by simp, ?_⟩
  have h3 := h.2.2.2
  simpa [withPfx] using h3

theorem C8_cache_recomputation_witness :
    updateKeys "" [("a", .env ⟨.vNum 1, some "int", true, none⟩)] = ["a"] ∧
    (Store.setMany "" [] [] 0 [("a", .vNum 1, SetOptions.mk (some "int") none none)]).2.1 =
      updateKeys "" (Store.setMany "" [] [] 0
        [("a", .vNum 1, SetOptions.mk (some "int") none none)]).1 ∧
    (Store.setMany "" [] ["stale"] 0 [("b", .vStr "x", SetOptions.mk (some "number") none none)]).2.1 =
      ["stale"] := by
  refine ⟨?_, ?_, ?_⟩
  · exact (C8_cache_recomputation.1 "" [] 0 "a" (.vNum 1) (SetOptions.mk (some "int") none none)
      [("a", .env ⟨.vNum 1, some "int", true, none⟩)] ["a"] rfl).symm.trans rfl
  · exact C8_cache_recomputation.2.2.2.1 "" [] [] 0
      [("a", .vNum 1, SetOptions.mk (some "int") none none)] rfl
  · exact C8_cache_recomputation.2.2.2.2.1 "" [] ["stale"] 0
      [("b", .vStr "x", SetOptions.mk (some "number") none none)] (.typeMismatch "number") rfl
